import Mathlib

/-!
Shallow embedding of the APEX negotiation core (src/apex) and proofs about it.

Python `Decimal` values are modelled by `Money`, a scaled integer `m / 10^e`.
Prices that arrive on the wire are decimal literals, so this representation is
exact.  `Decimal.quantize(Decimal("0.01"))` (default ROUND_HALF_EVEN) is
`Money.quantize2`.  Wall-clock inputs (`datetime.now()`) are passed in
explicitly: the deadline test becomes a Boolean input and the log timestamp a
string input.  The strategy decision (`_curve_decide` / `_llm_decide`) is an
input to `receiveOffer`: the engine's enforcement code after the decision is
translated literally from `NegotiationEngine.receive_offer`.
-/

/-- Scaled decimal number `m / 10 ^ e`, the model of Python `Decimal`. -/
structure Money where
  m : ℤ
  e : ℕ
deriving DecidableEq, Repr

/-- Rational value of a `Money`. -/
def Money.toRat (a : Money) : ℚ := (a.m : ℚ) / (10 : ℚ) ^ a.e

/-- Boolean `≤` on `Money`, computed on cross-multiplied integers. -/
def Money.leB (a b : Money) : Bool := decide (a.m * 10 ^ b.e ≤ b.m * 10 ^ a.e)

/-- Boolean `<` on `Money`, computed on cross-multiplied integers. -/
def Money.ltB (a b : Money) : Bool := decide (a.m * 10 ^ b.e < b.m * 10 ^ a.e)

theorem Money.toRat_def (a : Money) : a.toRat = (a.m : ℚ) / (10 : ℚ) ^ a.e := rfl

theorem Money.leB_iff (a b : Money) : a.leB b = true ↔ a.toRat ≤ b.toRat := by
  unfold Money.leB Money.toRat
  rw [decide_eq_true_iff]
  rw [div_le_div_iff₀ (by positivity) (by positivity)]
  constructor <;> intro h <;> exact_mod_cast h

theorem Money.ltB_iff (a b : Money) : a.ltB b = true ↔ a.toRat < b.toRat := by
  unfold Money.ltB Money.toRat
  rw [decide_eq_true_iff]
  rw [div_lt_div_iff₀ (by positivity) (by positivity)]
  constructor <;> intro h <;> exact_mod_cast h

theorem Money.ltB_eq_false_iff (a b : Money) : a.ltB b = false ↔ b.toRat ≤ a.toRat := by
  rw [← not_lt, ← Money.ltB_iff a b]
  cases h : a.ltB b <;> simp

/-- Round `n / d` (with `d > 0`) to the nearest integer, ties to even:
the integer core of `Decimal.quantize` with ROUND_HALF_EVEN. -/
def roundHalfEvenInt (n d : ℤ) : ℤ :=
  let q := n / d
  let r := n % d
  if 2 * r < d then q
  else if d < 2 * r then q + 1
  else if q % 2 = 0 then q else q + 1

/-- Round-half-even on rationals, value-level specification of `roundHalfEvenInt`. -/
def rheQ (x : ℚ) : ℤ :=
  if Int.fract x < 1 / 2 then ⌊x⌋
  else if (1 : ℚ) / 2 < Int.fract x then ⌊x⌋ + 1
  else if ⌊x⌋ % 2 = 0 then ⌊x⌋ else ⌊x⌋ + 1

theorem rheQ_intCast (k : ℤ) : rheQ (k : ℚ) = k := by
  unfold rheQ
  rw [Int.fract_intCast, Int.floor_intCast]
  norm_num

theorem floor_le_rheQ (x : ℚ) : ⌊x⌋ ≤ rheQ x := by
  unfold rheQ
  split
  · exact le_refl _
  split
  · omega
  split <;> omega

theorem rheQ_le_floor_add_one (x : ℚ) : rheQ x ≤ ⌊x⌋ + 1 := by
  unfold rheQ
  split
  · omega
  split
  · omega
  split <;> omega

/-- An integer lower bound passes through round-half-even. -/
theorem le_rheQ_of_le (k : ℤ) (x : ℚ) (h : (k : ℚ) ≤ x) : k ≤ rheQ x :=
  le_trans (Int.le_floor.mpr h) (floor_le_rheQ x)

/-- An integer upper bound passes through round-half-even. -/
theorem rheQ_le_of_le (j : ℤ) (x : ℚ) (h : x ≤ (j : ℚ)) : rheQ x ≤ j := by
  have hfl : ⌊x⌋ ≤ j := Int.floor_le_floor h |>.trans_eq (Int.floor_intCast j)
  rcases lt_or_eq_of_le hfl with hlt | heq
  · exact le_trans (rheQ_le_floor_add_one x) (by omega)
  · have hxj : x = (j : ℚ) := by
      have hjx : (j : ℚ) ≤ x := by
        rw [← heq]
        exact Int.floor_le x
      exact le_antisymm h hjx
    rw [hxj, rheQ_intCast]

/-- `roundHalfEvenInt` agrees with the rational-level specification. -/
theorem roundHalfEvenInt_eq_rheQ (n d : ℤ) (hd : 0 < d) :
    roundHalfEvenInt n d = rheQ ((n : ℚ) / (d : ℚ)) := by
  have hdQ : (0 : ℚ) < (d : ℚ) := by exact_mod_cast hd
  have hfloor : ⌊(n : ℚ) / (d : ℚ)⌋ = n / d := by
    have hdn : d = ((d.toNat : ℕ) : ℤ) := by omega
    rw [hdn]
    push_cast
    exact Rat.floor_intCast_div_natCast n d.toNat
  have hsum : d * (n / d) + n % d = n := Int.ediv_add_emod n d
  have hsumQ : (d : ℚ) * ((n / d : ℤ) : ℚ) + ((n % d : ℤ) : ℚ) = (n : ℚ) := by
    exact_mod_cast hsum
  have hfract : Int.fract ((n : ℚ) / (d : ℚ)) = ((n % d : ℤ) : ℚ) / (d : ℚ) := by
    rw [Int.fract, hfloor]
    rw [sub_eq_iff_eq_add, div_add' _ _ _ (ne_of_gt hdQ), div_eq_div_iff (ne_of_gt hdQ) (ne_of_gt hdQ)]
    nlinarith [hsumQ]
  have hlt_iff : (Int.fract ((n : ℚ) / (d : ℚ)) < 1 / 2) ↔ (2 * (n % d) < d) := by
    rw [hfract, div_lt_div_iff₀ hdQ (by norm_num)]
    constructor
    · intro h
      have h2 : (2 : ℚ) * ((n % d : ℤ) : ℚ) < (d : ℚ) := by linarith
      exact_mod_cast h2
    · intro h
      have h2 : (2 : ℚ) * ((n % d : ℤ) : ℚ) < (d : ℚ) := by exact_mod_cast h
      linarith
  have hgt_iff : ((1 : ℚ) / 2 < Int.fract ((n : ℚ) / (d : ℚ))) ↔ (d < 2 * (n % d)) := by
    rw [hfract, div_lt_div_iff₀ (by norm_num) hdQ]
    constructor
    · intro h
      have h2 : (d : ℚ) < 2 * ((n % d : ℤ) : ℚ) := by linarith
      exact_mod_cast h2
    · intro h
      have h2 : (d : ℚ) < 2 * ((n % d : ℤ) : ℚ) := by exact_mod_cast h
      linarith
  unfold roundHalfEvenInt rheQ
  rw [hfloor]
  by_cases h1 : 2 * (n % d) < d
  · rw [if_pos h1, if_pos (hlt_iff.mpr h1)]
  · rw [if_neg h1, if_neg (fun hc => h1 (hlt_iff.mp hc))]
    by_cases h2 : d < 2 * (n % d)
    · rw [if_pos h2, if_pos (hgt_iff.mpr h2)]
    · rw [if_neg h2, if_neg (fun hc => h2 (hgt_iff.mp hc))]

/-- `Decimal.quantize(Decimal("0.01"))` with the default ROUND_HALF_EVEN mode:
round the value to two fractional digits, result carried at scale 2. -/
def Money.quantize2 (a : Money) : Money :=
  if h : a.e ≤ 2 then ⟨a.m * 10 ^ (2 - a.e), 2⟩
  else ⟨roundHalfEvenInt a.m (10 ^ (a.e - 2)), 2⟩

/-- Multiplication by `Decimal("0.98")`: exact, scales add. -/
def Money.mul098 (a : Money) : Money := ⟨a.m * 98, a.e + 2⟩

/-- Python `max(a, b)`: returns `b` exactly when `b > a`. -/
def Money.pyMax (a b : Money) : Money := if a.ltB b then b else a

theorem Money.mul098_toRat (a : Money) : a.mul098.toRat = a.toRat * (98 / 100) := by
  show ((a.m * 98 : ℤ) : ℚ) / (10 : ℚ) ^ (a.e + 2) = (a.m : ℚ) / (10 : ℚ) ^ a.e * (98 / 100)
  rw [pow_add]
  push_cast
  rw [div_mul_div_comm]
  norm_num

theorem Money.pyMax_toRat (a b : Money) : (a.pyMax b).toRat = max a.toRat b.toRat := by
  unfold Money.pyMax
  cases h : a.ltB b with
  | true =>
    rw [if_pos rfl, max_eq_right (le_of_lt ((Money.ltB_iff a b).mp h))]
  | false =>
    rw [if_neg (by simp), max_eq_left ((Money.ltB_eq_false_iff a b).mp h)]

/-- Value of `quantize2`: round-half-even of 100 times the value, divided by 100. -/
theorem Money.quantize2_toRat (a : Money) :
    a.quantize2.toRat = ((rheQ (100 * a.toRat) : ℤ) : ℚ) / 100 := by
  unfold Money.quantize2
  split
  · rename_i h
    have h100 : 100 * a.toRat = ((a.m * 10 ^ (2 - a.e) : ℤ) : ℚ) := by
      unfold Money.toRat
      push_cast
      have hsplit : (10 : ℚ) ^ (2 : ℕ) = 10 ^ (2 - a.e) * 10 ^ a.e := by
        rw [← pow_add]
        congr 1
        omega
      have hpow : (0 : ℚ) < (10 : ℚ) ^ a.e := by positivity
      field_simp
      calc (100 : ℚ) * a.m = a.m * ((10 : ℚ) ^ (2 : ℕ)) := by norm_num; ring
        _ = a.m * (10 ^ (2 - a.e) * 10 ^ a.e) := by rw [hsplit]
        _ = a.m * 10 ^ (2 - a.e) * 10 ^ a.e := by ring
    rw [h100, rheQ_intCast]
    unfold Money.toRat
    norm_num
  · rename_i h
    have hd : (0 : ℤ) < 10 ^ (a.e - 2) := by positivity
    rw [roundHalfEvenInt_eq_rheQ a.m _ hd]
    have h100 : 100 * a.toRat = (a.m : ℚ) / ((10 : ℚ) ^ (a.e - 2)) := by
      unfold Money.toRat
      have hsplit : (10 : ℚ) ^ a.e = 10 ^ (a.e - 2) * 10 ^ (2 : ℕ) := by
        rw [← pow_add]
        congr 1
        omega
      rw [hsplit]
      have hpow : (0 : ℚ) < (10 : ℚ) ^ (a.e - 2) := by positivity
      field_simp
      ring
    rw [h100]
    unfold Money.toRat
    push_cast
    norm_num

/-- The value of `quantize2` is always a whole number of cents. -/
theorem Money.quantize2_cents (a : Money) : ∃ k : ℤ, a.quantize2.toRat = (k : ℚ) / 100 :=
  ⟨rheQ (100 * a.toRat), Money.quantize2_toRat a⟩

/-- `quantize2` is the identity on values that are whole cents. -/
theorem Money.quantize2_fix (a : Money) (k : ℤ) (h : a.toRat = (k : ℚ) / 100) :
    a.quantize2.toRat = a.toRat := by
  rw [Money.quantize2_toRat, h]
  have : 100 * ((k : ℚ) / 100) = (k : ℚ) := by field_simp
  rw [this, rheQ_intCast]

/-- A whole-cent lower bound survives `quantize2`. -/
theorem Money.le_quantize2 (a : Money) (k : ℤ) (h : (k : ℚ) / 100 ≤ a.toRat) :
    (k : ℚ) / 100 ≤ a.quantize2.toRat := by
  rw [Money.quantize2_toRat]
  have hk : (k : ℚ) ≤ 100 * a.toRat := by linarith
  have := le_rheQ_of_le k _ hk
  have : (k : ℚ) ≤ ((rheQ (100 * a.toRat) : ℤ) : ℚ) := by exact_mod_cast this
  linarith

/-- A whole-cent upper bound survives `quantize2`. -/
theorem Money.quantize2_le (a : Money) (j : ℤ) (h : a.toRat ≤ (j : ℚ) / 100) :
    a.quantize2.toRat ≤ (j : ℚ) / 100 := by
  rw [Money.quantize2_toRat]
  have hj : 100 * a.toRat ≤ (j : ℚ) := by linarith
  have := rheQ_le_of_le j _ hj
  have : ((rheQ (100 * a.toRat) : ℤ) : ℚ) ≤ (j : ℚ) := by exact_mod_cast this
  linarith

/-!
SHA-256 (FIPS 180-4) over byte lists, with 32-bit words as `ℕ` reduced
mod `2 ^ 32`.  `hashlib.sha256(payload).hexdigest()[:16]` becomes
`hash16`.
-/

/-- `2 ^ 32`, the word modulus. -/
def M32 : ℕ := 4294967296

/-- Rotate a 32-bit word right by `n` bits. -/
def rotr32 (x n : ℕ) : ℕ := ((x >>> n) ||| (x <<< (32 - n))) % M32

/-- SHA-256 small sigma 0. -/
def smallSigma0 (x : ℕ) : ℕ := rotr32 x 7 ^^^ rotr32 x 18 ^^^ (x >>> 3)

/-- SHA-256 small sigma 1. -/
def smallSigma1 (x : ℕ) : ℕ := rotr32 x 17 ^^^ rotr32 x 19 ^^^ (x >>> 10)

/-- SHA-256 big sigma 0. -/
def bigSigma0 (x : ℕ) : ℕ := rotr32 x 2 ^^^ rotr32 x 13 ^^^ rotr32 x 22

/-- SHA-256 big sigma 1. -/
def bigSigma1 (x : ℕ) : ℕ := rotr32 x 6 ^^^ rotr32 x 11 ^^^ rotr32 x 25

/-- SHA-256 choice function. -/
def shaCh (x y z : ℕ) : ℕ := (x &&& y) ^^^ ((x ^^^ 4294967295) &&& z)

/-- SHA-256 majority function. -/
def shaMaj (x y z : ℕ) : ℕ := (x &&& y) ^^^ (x &&& z) ^^^ (y &&& z)

/-- The 64 SHA-256 round constants. -/
def sha256K : List ℕ :=
  [1116352408, 1899447441, 3049323471, 3921009573, 961987163, 1508970993,
   2453635748, 2870763221, 3624381080, 310598401, 607225278, 1426881987,
   1925078388, 2162078206, 2614888103, 3248222580, 3835390401, 4022224774,
   264347078, 604807628, 770255983, 1249150122, 1555081692, 1996064986,
   2554220882, 2821834349, 2952996808, 3210313671, 3336571891, 3584528711,
   113926993, 338241895, 666307205, 773529912, 1294757372, 1396182291,
   1695183700, 1986661051, 2177026350, 2456956037, 2730485921, 2820302411,
   3259730800, 3345764771, 3516065817, 3600352804, 4094571909, 275423344,
   430227734, 506948616, 659060556, 883997877, 958139571, 1322822218,
   1537002063, 1747873779, 1955562222, 2024104815, 2227730452, 2361852424,
   2428436474, 2756734187, 3204031479, 3329325298]

/-- The working variables of the compression function. -/
structure Digest8 where
  a : ℕ
  b : ℕ
  c : ℕ
  d : ℕ
  e : ℕ
  f : ℕ
  g : ℕ
  h : ℕ
deriving DecidableEq, Repr

/-- The SHA-256 initial hash value. -/
def sha256H0 : Digest8 :=
  ⟨1779033703, 3144134277, 1013904242, 2773480762, 1359893119, 2600822924, 528734635, 1541459225⟩

/-- One compression round. -/
def shaStep (st : Digest8) (kw : ℕ × ℕ) : Digest8 :=
  let t1 := (st.h + bigSigma1 st.e + shaCh st.e st.f st.g + kw.1 + kw.2) % M32
  let t2 := (bigSigma0 st.a + shaMaj st.a st.b st.c) % M32
  ⟨(t1 + t2) % M32, st.a, st.b, st.c, (st.d + t1) % M32, st.e, st.f, st.g⟩

/-- Extend a 16-word block to the 64-word message schedule. -/
def extendSchedule (block : List ℕ) : List ℕ :=
  ((List.range 48).foldl
    (fun w _ =>
      let i := w.size
      w.push ((smallSigma1 (w.getD (i - 2) 0) + w.getD (i - 7) 0 +
               smallSigma0 (w.getD (i - 15) 0) + w.getD (i - 16) 0) % M32))
    block.toArray).toList

/-- Compress one 16-word block into the running digest. -/
def shaCompress (hv : Digest8) (block : List ℕ) : Digest8 :=
  let kw := sha256K.zip (extendSchedule block)
  let s := kw.foldl shaStep hv
  ⟨(hv.a + s.a) % M32, (hv.b + s.b) % M32, (hv.c + s.c) % M32, (hv.d + s.d) % M32,
   (hv.e + s.e) % M32, (hv.f + s.f) % M32, (hv.g + s.g) % M32, (hv.h + s.h) % M32⟩

/-- Fold the compression function over consecutive 16-word blocks. -/
def processBlocks (hv : Digest8) : List ℕ → Digest8
  | w0 :: w1 :: w2 :: w3 :: w4 :: w5 :: w6 :: w7 ::
    w8 :: w9 :: w10 :: w11 :: w12 :: w13 :: w14 :: w15 :: rest =>
      processBlocks
        (shaCompress hv [w0, w1, w2, w3, w4, w5, w6, w7, w8, w9, w10, w11, w12, w13, w14, w15])
        rest
  | _ => hv

/-- Pack big-endian bytes into 32-bit words. -/
def bytesToWords : List ℕ → List ℕ
  | b0 :: b1 :: b2 :: b3 :: rest =>
      (((b0 <<< 8 ||| b1) <<< 8 ||| b2) <<< 8 ||| b3) :: bytesToWords rest
  | _ => []

/-- The 8-byte big-endian encoding of the bit length. -/
def lengthBytes (bits : ℕ) : List ℕ :=
  [bits >>> 56 % 256, bits >>> 48 % 256, bits >>> 40 % 256, bits >>> 32 % 256,
   bits >>> 24 % 256, bits >>> 16 % 256, bits >>> 8 % 256, bits % 256]

/-- SHA-256 message padding to a multiple of 64 bytes. -/
def padMessage (msg : List ℕ) : List ℕ :=
  let len := msg.length
  msg ++ [128] ++ List.replicate ((119 - len % 64) % 64) 0 ++ lengthBytes (8 * len)

/-- Split a word of the final digest into big-endian bytes. -/
def wordBytes (w : ℕ) : List ℕ := [w >>> 24 % 256, w >>> 16 % 256, w >>> 8 % 256, w % 256]

/-- SHA-256 of a byte list, as 32 bytes. -/
def sha256 (msg : List ℕ) : List ℕ :=
  let d := processBlocks sha256H0 (bytesToWords (padMessage msg))
  [d.a, d.b, d.c, d.d, d.e, d.f, d.g, d.h].flatMap wordBytes

/-- Lowercase hex digit for a value below 16. -/
def hexDigitChar (n : ℕ) : Char := Char.ofNat (if n < 10 then 48 + n else 87 + n)

/-- Lowercase hex string of a byte list, two digits per byte. -/
def bytesToHex (bs : List ℕ) : String :=
  String.mk (bs.flatMap (fun b => [hexDigitChar (b / 16 % 16), hexDigitChar (b % 16)]))

/-- UTF-8 encoding of one code point. -/
def utf8Char (c : Char) : List ℕ :=
  let n := c.toNat
  if n < 128 then [n]
  else if n < 2048 then [192 + n / 64, 128 + n % 64]
  else if n < 65536 then [224 + n / 4096, 128 + n / 64 % 64, 128 + n % 64]
  else [240 + n / 262144, 128 + n / 4096 % 64, 128 + n / 64 % 64, 128 + n % 64]

/-- UTF-8 encoding of a string as a byte list. -/
def utf8Encode (s : String) : List ℕ := s.data.flatMap utf8Char

/-- `hashlib.sha256(payload.encode()).hexdigest()`. -/
def sha256hex (s : String) : String := bytesToHex (sha256 (utf8Encode s))

/-- `hexdigest()[:16]`, the stored transcript hash. -/
def hash16 (s : String) : String := (sha256hex s).take 16

/-!
The negotiation engine (src/apex/negotiation.py).  `Strategy` decisions come
from `_curve_decide` (float exponential curve) or `_llm_decide` (a network
call); both are inputs to `receiveOffer` here, which translates the
enforcement logic of `NegotiationEngine.receive_offer` literally.
-/

/-- Python `str(Decimal(...))` in fixed-point form: coefficient digits with a
decimal point inserted `e` digits from the right. -/
def Money.str (a : Money) : String :=
  let ds := (toString a.m.natAbs).data
  let sign := if a.m < 0 then "-" else ""
  if a.e = 0 then sign ++ String.mk ds
  else if ds.length ≤ a.e then
    sign ++ "0." ++ String.mk (List.replicate (a.e - ds.length) '0') ++ String.mk ds
  else
    sign ++ String.mk (ds.take (ds.length - a.e)) ++ "." ++ String.mk (ds.drop (ds.length - a.e))

/-- Rendering of the `price` field in the `_log` payload f-string:
Python renders `None` as `"None"` and a `Decimal` via `str`. -/
def priceRepr : Option Money → String
  | none => "None"
  | some a => a.str

/-- States of `NegotiationState`. -/
inductive NState where
  | inProgress
  | accepted
  | rejected
  | expired
deriving DecidableEq, Repr

/-- A `TranscriptEntry`. -/
structure Entry where
  party : String
  action : String
  price : Option Money
  timestamp : String
  hash : String
deriving DecidableEq, Repr

/-- Hash of the last transcript entry, `"0"` when the transcript is empty:
`self.transcript[-1].hash if self.transcript else "0"`. -/
def lastHash (tr : List Entry) : String :=
  match tr.getLast? with
  | some en => en.hash
  | none => "0"

/-- The payload `f"{prev_hash}:{party}:{action}:{price}:{ts.isoformat()}"`. -/
def logPayload (prev party action : String) (price : Option Money) (ts : String) : String :=
  prev ++ ":" ++ party ++ ":" ++ action ++ ":" ++ priceRepr price ++ ":" ++ ts

/-- `NegotiationEngine._log`: append an entry whose hash chains on the
previous entry's hash. -/
def logEntry (tr : List Entry) (party action : String) (price : Option Money) (ts : String) :
    List Entry :=
  tr ++ [⟨party, action, price, ts, hash16 (logPayload (lastHash tr) party action price ts)⟩]

/-- The mutable state of a `NegotiationEngine`.  The deadline itself is wall
clock; whether `now > deadline` holds is an input of each call. -/
structure Engine where
  target : Money
  minimum : Money
  maxRounds : ℤ
  state : NState
  round : ℕ
  lastCounter : Option Money
  bestBuyerOffer : Option Money
  transcript : List Entry
deriving Repr

/-- Engine construction from explicit `(target, minimum)` bounds
(`NegotiationEngine.__init__`, legacy mode). -/
def Engine.init (target minimum : Money) (maxRounds : ℤ) : Engine :=
  ⟨target, minimum, maxRounds, NState.inProgress, 0, none, none, []⟩

/-- A strategy `Decision`: the output of `_curve_decide`, `_llm_decide`
or the floor-protection coercion. -/
inductive Decision where
  | accept (reason : Option String)
  | counter (price : Money) (reason : Option String)
  | reject (reason : Option String)
deriving Repr

/-- The reason string attached by the floor-protection coercion. -/
def floorReason : String := "Let\x27s find a middle ground."

/-- Floor protection, translated from
`if decision.action == "reject" and offer_price >= self.minimum`. -/
def floorProtect (minimum offerPrice : Money) (d : Decision) : Decision :=
  match d with
  | Decision.reject _ =>
      if minimum.leB offerPrice then Decision.counter minimum (some floorReason) else d
  | _ => d

/-- A seller counter `Offer`. -/
structure Offer where
  price : Money
  round : ℕ
  reason : Option String
deriving Repr

/-- `NegotiationEngine.receive_offer`.  `expired` is the value of
`datetime.now(timezone.utc) > self.deadline`; `ts` the timestamp the log
entries carry; `d` the decision produced by the strategy step. -/
def receiveOffer (s : Engine) (p : Money) (expired : Bool) (ts : String) (d : Decision) :
    Engine × NState × Option Offer :=
  if expired then
    let s1 := { s with transcript := logEntry s.transcript "system" "expired" none ts,
                       state := NState.expired }
    (s1, NState.expired, none)
  else
    let rnd := s.round + 1
    let tr1 := logEntry s.transcript "buyer" "offer" (some p) ts
    let best := match s.bestBuyerOffer with
      | none => some p
      | some b => if b.ltB p then some p else some b
    let s1 := { s with round := rnd, transcript := tr1, bestBuyerOffer := best }
    if s.maxRounds < (rnd : ℤ) then
      let s2 := { s1 with transcript := logEntry s1.transcript "system" "reject" none ts,
                          state := NState.rejected }
      (s2, NState.rejected, none)
    else
      match floorProtect s.minimum p d with
      | Decision.accept _ =>
          let s2 := { s1 with transcript := logEntry s1.transcript "seller" "accept" (some p) ts,
                              state := NState.accepted }
          (s2, NState.accepted, none)
      | Decision.reject _ =>
          let s2 := { s1 with transcript := logEntry s1.transcript "seller" "reject" none ts,
                              state := NState.rejected }
          (s2, NState.rejected, none)
      | Decision.counter q reason =>
          let cp0 := q.quantize2
          let cp := match s.lastCounter with
            | some lc => if lc.ltB cp0 then (lc.mul098.quantize2).pyMax s.minimum else cp0
            | none => cp0
          let s2 := { s1 with lastCounter := some cp,
                              transcript := logEntry s1.transcript "seller" "counter" (some cp) ts }
          (s2, s.state, some ⟨cp, rnd, reason⟩)

/-- States reachable by any sequence of `receive_offer` calls, with the
strategy decision, clock and timestamps unconstrained. -/
inductive Reachable : Engine → Prop where
  | init (target minimum : Money) (maxRounds : ℤ) :
      Reachable (Engine.init target minimum maxRounds)
  | step (s : Engine) (p : Money) (expired : Bool) (ts : String) (d : Decision) :
      Reachable s → Reachable (receiveOffer s p expired ts d).1

/-!
Generic facts about `receiveOffer`, then the floor-protection, round-bound
and hash-chain properties.
-/

theorem receiveOffer_keeps_params (s : Engine) (p : Money) (expired : Bool) (ts : String)
    (d : Decision) :
    (receiveOffer s p expired ts d).1.target = s.target ∧
    (receiveOffer s p expired ts d).1.minimum = s.minimum ∧
    (receiveOffer s p expired ts d).1.maxRounds = s.maxRounds := by
  simp only [receiveOffer]
  split
  · exact ⟨rfl, rfl, rfl⟩
  · split
    · exact ⟨rfl, rfl, rfl⟩
    · split <;> exact ⟨rfl, rfl, rfl⟩

/-- If a call leaves the engine IN_PROGRESS, the incremented round was within
the cap, so the stored round is at most `max_rounds`. -/
theorem receiveOffer_inProgress_round (s : Engine) (p : Money) (expired : Bool) (ts : String)
    (d : Decision) (h : (receiveOffer s p expired ts d).1.state = NState.inProgress) :
    ((receiveOffer s p expired ts d).1.round : ℤ) ≤ s.maxRounds := by
  revert h
  simp only [receiveOffer]
  split
  · intro h
    exact absurd h (by simp)
  · split
    · intro h
      exact absurd h (by simp)
    · rename_i hexp hcap
      split
      · intro h
        exact absurd h (by simp)
      · intro h
        exact absurd h (by simp)
      · intro _
        simp only []
        omega

/-- C1.  Floor protection: with the offer at or above the floor and the
incremented round within the cap, a call before the deadline never moves the
engine to REJECTED, and a strategy decision of `reject` is coerced into a
counter at the floor price. -/
theorem floor_protection_no_reject (s : Engine) (p : Money) (ts : String) (d : Decision)
    (htm : s.minimum.toRat ≤ s.target.toRat)
    (hlive : s.state = NState.inProgress)
    (hround : (s.round : ℤ) + 1 ≤ s.maxRounds)
    (hp : s.minimum.toRat ≤ p.toRat) :
    (receiveOffer s p false ts d).1.state ≠ NState.rejected ∧
    (receiveOffer s p false ts d).2.1 ≠ NState.rejected ∧
    ∀ r, floorProtect s.minimum p (Decision.reject r) =
        Decision.counter s.minimum (some floorReason) := by
  have hleB : s.minimum.leB p = true := (Money.leB_iff _ _).mpr hp
  have hcoerce : ∀ r, floorProtect s.minimum p (Decision.reject r) =
      Decision.counter s.minimum (some floorReason) := by
    intro r
    unfold floorProtect
    rw [hleB]
    rfl
  have hcap : ¬ (s.maxRounds < ((s.round + 1 : ℕ) : ℤ)) := by
    push_cast
    omega
  refine ⟨?_, ?_, hcoerce⟩ <;>
  · simp only [receiveOffer, Bool.false_eq_true, if_false, if_neg hcap]
    rcases d with r | ⟨q, r⟩ | r
    · simp [floorProtect]
    · simp [floorProtect, hlive]
    · rw [hcoerce r]
      simp [hlive]

/-- Concrete engine used to witness the floor-protection theorem:
target 10.00, minimum 5.00, three rounds. -/
def c1Engine : Engine := Engine.init ⟨1000, 2⟩ ⟨500, 2⟩ 3

theorem floor_protection_no_reject_witness :
    (receiveOffer c1Engine ⟨600, 2⟩ false "2026-01-01T00:00:00+00:00"
        (Decision.reject none)).1.state ≠ NState.rejected ∧
    (receiveOffer c1Engine ⟨600, 2⟩ false "2026-01-01T00:00:00+00:00"
        (Decision.reject none)).2.1 ≠ NState.rejected ∧
    ∀ r, floorProtect c1Engine.minimum ⟨600, 2⟩ (Decision.reject r) =
        Decision.counter c1Engine.minimum (some floorReason) :=
  floor_protection_no_reject c1Engine ⟨600, 2⟩ "2026-01-01T00:00:00+00:00" (Decision.reject none)
    (by norm_num [Money.toRat, c1Engine, Engine.init]) rfl (by decide)
    (by norm_num [Money.toRat, c1Engine, Engine.init])

/-- C5 (amended).  In every reachable state that is still IN_PROGRESS the
round counter respects the cap.  (The call that trips the cap stores
`round = max_rounds + 1` before moving to REJECTED, so the bound does not
hold of terminal states.) -/
theorem reachable_inProgress_round_le (s : Engine) (h : Reachable s)
    (hmr : 1 ≤ s.maxRounds) (hst : s.state = NState.inProgress) :
    (s.round : ℤ) ≤ s.maxRounds := by
  induction h with
  | init target minimum maxRounds =>
    simp only [Engine.init] at hmr hst ⊢
    omega
  | step s' p expired ts d hr ih =>
    have hkeep := receiveOffer_keeps_params s' p expired ts d
    have := receiveOffer_inProgress_round s' p expired ts d hst
    omega

theorem reachable_inProgress_round_le_witness :
    ((Engine.init ⟨1000, 2⟩ ⟨500, 2⟩ 3).round : ℤ) ≤ (Engine.init ⟨1000, 2⟩ ⟨500, 2⟩ 3).maxRounds :=
  reachable_inProgress_round_le (Engine.init ⟨1000, 2⟩ ⟨500, 2⟩ 3)
    (Reachable.init ⟨1000, 2⟩ ⟨500, 2⟩ 3) (by decide) rfl

/-- First step of the run refuting the unqualified C5 invariant:
`max_rounds = 1`, one in-budget counter round. -/
def c5Engine1 : Engine :=
  (receiveOffer (Engine.init ⟨1000, 2⟩ ⟨500, 2⟩ 1) ⟨600, 2⟩ false "t1"
    (Decision.counter ⟨800, 2⟩ none)).1

/-- Second step: the round counter is incremented to 2 before the cap check
fires, so the stored round exceeds `max_rounds`. -/
def c5Engine2 : Engine :=
  (receiveOffer c5Engine1 ⟨700, 2⟩ false "t2" (Decision.counter ⟨800, 2⟩ none)).1

/-- C5 counterexample.  The claim `round ≤ max_rounds` in all reachable
states fails: after the call that trips the round cap the engine stores
`round = 2` with `max_rounds = 1`. -/
theorem round_le_maxRounds_counterexample :
    ¬ (∀ s : Engine, Reachable s → (s.round : ℤ) ≤ s.maxRounds) := by
  intro hall
  have hr : Reachable c5Engine2 :=
    Reachable.step _ _ _ _ _ (Reachable.step _ _ _ _ _ (Reachable.init _ _ _))
  have hle := hall c5Engine2 hr
  have h2 : c5Engine2.round = 2 := by rfl
  have h1 : c5Engine2.maxRounds = 1 := by rfl
  rw [h2, h1] at hle
  omega

/-- Recompute the hash chain from the stored `(party, action, price,
timestamp)` tuples only: each recomputed hash feeds the next payload,
starting from `"0"`. -/
def tupleHashes (prev : String) : List Entry → List String
  | [] => []
  | en :: rest =>
      let h := hash16 (logPayload prev en.party en.action en.price en.timestamp)
      h :: tupleHashes h rest

/-- The hash feeding the entry appended after `tr`, when the chain started
from `prev`. -/
def chainPrev (prev : String) (tr : List Entry) : String :=
  match tr.getLast? with
  | some x => x.hash
  | none => prev

theorem chainPrev_cons (prev : String) (x : Entry) (xs : List Entry) :
    chainPrev prev (x :: xs) = chainPrev x.hash xs := by
  cases xs with
  | nil => rfl
  | cons y ys =>
    unfold chainPrev
    rw [List.getLast?_cons_cons]
    cases h : (y :: ys).getLast? with
    | none => simp at h
    | some z => rfl

theorem tupleHashes_append (tr : List Entry) (prev : String) (en : Entry)
    (hinv : tupleHashes prev tr = tr.map Entry.hash) :
    tupleHashes prev (tr ++ [en]) =
      tr.map Entry.hash ++
        [hash16 (logPayload (chainPrev prev tr) en.party en.action en.price en.timestamp)] := by
  induction tr generalizing prev with
  | nil => rfl
  | cons x xs ih =>
    have hx : hash16 (logPayload prev x.party x.action x.price x.timestamp) = x.hash ∧
        tupleHashes x.hash xs = xs.map Entry.hash := by
      have h1 := hinv
      unfold tupleHashes at h1
      simp only [List.map_cons] at h1
      obtain ⟨ha, hb⟩ := List.cons.injEq _ _ _ _ ▸ h1
      exact ⟨ha, ha ▸ hb⟩
    unfold tupleHashes
    simp only [List.cons_append, List.map_cons]
    rw [hx.1, chainPrev_cons]
    rw [ih x.hash hx.2]

theorem tupleHashes_logEntry (tr : List Entry) (party action : String) (price : Option Money)
    (ts : String) (hinv : tupleHashes "0" tr = tr.map Entry.hash) :
    tupleHashes "0" (logEntry tr party action price ts) =
      (logEntry tr party action price ts).map Entry.hash := by
  unfold logEntry
  rw [tupleHashes_append tr "0" _ hinv, List.map_append]
  have hlast : lastHash tr = chainPrev "0" tr := rfl
  rw [List.map_cons, List.map_nil, hlast]

/-- C8.  Hash-chain integrity: for every reachable engine, recomputing the
chain from the stored tuples (prev hash `"0"` for the first entry, then the
recomputed hash of the previous entry) reproduces every recorded hash. -/
theorem transcript_hash_chain (s : Engine) (h : Reachable s) :
    tupleHashes "0" s.transcript = s.transcript.map Entry.hash := by
  induction h with
  | init target minimum maxRounds => rfl
  | step s' p expired ts d hr ih =>
    show tupleHashes "0" (receiveOffer s' p expired ts d).1.transcript = _
    simp only [receiveOffer]
    split
    · exact tupleHashes_logEntry _ _ _ _ _ ih
    · split
      · exact tupleHashes_logEntry _ _ _ _ _ (tupleHashes_logEntry _ _ _ _ _ ih)
      · split
        · exact tupleHashes_logEntry _ _ _ _ _ (tupleHashes_logEntry _ _ _ _ _ ih)
        · exact tupleHashes_logEntry _ _ _ _ _ (tupleHashes_logEntry _ _ _ _ _ ih)
        · exact tupleHashes_logEntry _ _ _ _ _ (tupleHashes_logEntry _ _ _ _ _ ih)

/-- Concrete one-round engine used to witness the hash-chain theorem. -/
def c8Engine : Engine :=
  (receiveOffer (Engine.init ⟨2500, 2⟩ ⟨1500, 2⟩ 5) ⟨1200, 2⟩ false
    "2026-01-02T00:00:00+00:00" (Decision.counter ⟨2425, 2⟩ none)).1

theorem transcript_hash_chain_witness :
    tupleHashes "0" c8Engine.transcript = c8Engine.transcript.map Entry.hash :=
  transcript_hash_chain c8Engine (Reachable.step _ _ _ _ _ (Reachable.init _ _ _))

/-!
Seller counter monotonicity (C2): the emitted counter prices, read off the
transcript, are non-increasing and stay in `[minimum, target]`.
-/

/-- The seller counter prices recorded in a transcript, in order. -/
def counterPrices (tr : List Entry) : List Money :=
  tr.filterMap (fun en => if en.party = "seller" ∧ en.action = "counter" then en.price else none)

/-- A list of prices is non-increasing in value. -/
def NonIncr : List Money → Prop
  | [] => True
  | [_] => True
  | a :: b :: rest => b.toRat ≤ a.toRat ∧ NonIncr (b :: rest)

/-- The value is a whole number of cents. -/
def isCentsVal (a : Money) : Prop := ∃ k : ℤ, a.toRat = (k : ℚ) / 100

/-- Counter decisions produced by `_curve_decide` stay inside
`[minimum, target]` mathematically, and `_parse_llm_response` clamps LLM
counter prices into the same interval; this predicate captures that contract
on the decision fed to `receive_offer`. -/
def decisionOk (s : Engine) (d : Decision) : Prop :=
  match d with
  | Decision.counter q _ => s.minimum.toRat ≤ q.toRat ∧ q.toRat ≤ s.target.toRat
  | _ => True

/-- Reachability under in-range strategy decisions. -/
inductive ReachableB (tgt min : Money) : Engine → Prop where
  | init (maxRounds : ℤ) : ReachableB tgt min (Engine.init tgt min maxRounds)
  | step (s : Engine) (p : Money) (expired : Bool) (ts : String) (d : Decision) :
      decisionOk s d → ReachableB tgt min s →
      ReachableB tgt min (receiveOffer s p expired ts d).1

theorem counterPrices_append_other (tr : List Entry) (party action : String)
    (price : Option Money) (ts hsh : String)
    (h : ¬ (party = "seller" ∧ action = "counter")) :
    counterPrices (tr ++ [⟨party, action, price, ts, hsh⟩]) = counterPrices tr := by
  unfold counterPrices
  rw [List.filterMap_append]
  simp [h]

theorem counterPrices_logEntry_other (tr : List Entry) (party action : String)
    (price : Option Money) (ts : String)
    (h : ¬ (party = "seller" ∧ action = "counter")) :
    counterPrices (logEntry tr party action price ts) = counterPrices tr :=
  counterPrices_append_other tr party action price ts _ h

theorem counterPrices_logEntry_counter (tr : List Entry) (cp : Money) (ts : String) :
    counterPrices (logEntry tr "seller" "counter" (some cp) ts) = counterPrices tr ++ [cp] := by
  unfold logEntry counterPrices
  rw [List.filterMap_append]
  simp

theorem NonIncr_append (l : List Money) (b : Money) (h : NonIncr l)
    (hlast : ∀ a, l.getLast? = some a → b.toRat ≤ a.toRat) : NonIncr (l ++ [b]) := by
  induction l with
  | nil => trivial
  | cons x xs ih =>
    cases xs with
    | nil =>
      exact ⟨hlast x rfl, trivial⟩
    | cons y ys =>
      have h' : y.toRat ≤ x.toRat ∧ NonIncr (y :: ys) := h
      have hlast' : ∀ a, (y :: ys).getLast? = some a → b.toRat ≤ a.toRat := by
        intro a ha
        exact hlast a (by rw [List.getLast?_cons_cons]; exact ha)
      exact ⟨h'.1, ih h'.2 hlast'⟩

theorem isCentsVal_pyMax (a b : Money) (ha : isCentsVal a) (hb : isCentsVal b) :
    isCentsVal (a.pyMax b) := by
  unfold Money.pyMax
  split
  · exact hb
  · exact ha

/-- The invariant carried through a negotiation trace. -/
def counterInv (tgt min : Money) (s : Engine) : Prop :=
  s.target = tgt ∧ s.minimum = min ∧
  s.lastCounter = (counterPrices s.transcript).getLast? ∧
  NonIncr (counterPrices s.transcript) ∧
  ∀ q ∈ counterPrices s.transcript,
    min.toRat ≤ q.toRat ∧ q.toRat ≤ tgt.toRat ∧ isCentsVal q

theorem quantize2_in_range (min tgt q : Money) (hcm : isCentsVal min) (hct : isCentsVal tgt)
    (h1 : min.toRat ≤ q.toRat) (h2 : q.toRat ≤ tgt.toRat) :
    min.toRat ≤ q.quantize2.toRat ∧ q.quantize2.toRat ≤ tgt.toRat ∧ isCentsVal q.quantize2 := by
  obtain ⟨k, hk⟩ := hcm
  obtain ⟨j, hj⟩ := hct
  refine ⟨?_, ?_, Money.quantize2_cents q⟩
  · rw [hk]
    exact Money.le_quantize2 q k (hk ▸ h1)
  · rw [hj]
    exact Money.quantize2_le q j (hj ▸ h2)

theorem clamped_in_range (min tgt lc : Money) (hcm : isCentsVal min) (h0 : 0 ≤ min.toRat)
    (hl1 : min.toRat ≤ lc.toRat) (hl2 : lc.toRat ≤ tgt.toRat) (hlcents : isCentsVal lc) :
    min.toRat ≤ ((lc.mul098.quantize2).pyMax min).toRat ∧
    ((lc.mul098.quantize2).pyMax min).toRat ≤ lc.toRat ∧
    isCentsVal ((lc.mul098.quantize2).pyMax min) := by
  obtain ⟨l, hlval⟩ := hlcents
  have hlc0 : 0 ≤ lc.toRat := le_trans h0 hl1
  have hmul : lc.mul098.toRat ≤ lc.toRat := by
    rw [Money.mul098_toRat]
    nlinarith
  have hQ : lc.mul098.quantize2.toRat ≤ lc.toRat := by
    rw [hlval]
    exact Money.quantize2_le _ l (by rw [← hlval]; exact hmul)
  refine ⟨?_, ?_, isCentsVal_pyMax _ _ (Money.quantize2_cents _) hcm⟩
  · rw [Money.pyMax_toRat]
    exact le_max_right _ _
  · rw [Money.pyMax_toRat]
    exact max_le hQ hl1

/-- One `receive_offer` call preserves the counter invariant, provided the
bounds are cent-precision, the floor is nonnegative and the strategy decision
is in range. -/
theorem counterInv_step (tgt min : Money) (s : Engine) (p : Money) (expired : Bool)
    (ts : String) (d : Decision) (hd : decisionOk s d)
    (hcm : isCentsVal min) (hct : isCentsVal tgt)
    (h0 : 0 ≤ min.toRat) (hmt : min.toRat ≤ tgt.toRat)
    (hinv : counterInv tgt min s) :
    counterInv tgt min (receiveOffer s p expired ts d).1 := by
  obtain ⟨htg, hmn, hlc, hni, hbd⟩ := hinv
  have hsys1 : ¬ ("system" = "seller" ∧ "expired" = "counter") := by decide
  have hsys2 : ¬ ("buyer" = "seller" ∧ "offer" = "counter") := by decide
  have hsys3 : ¬ ("system" = "seller" ∧ "reject" = "counter") := by decide
  have hsys4 : ¬ ("seller" = "seller" ∧ "accept" = "counter") := by decide
  have hsys5 : ¬ ("seller" = "seller" ∧ "reject" = "counter") := by decide
  simp only [receiveOffer]
  cases expired with
  | true =>
    rw [if_pos rfl]
    exact ⟨htg, hmn,
      by rw [counterPrices_logEntry_other _ _ _ _ _ hsys1]; exact hlc,
      by rw [counterPrices_logEntry_other _ _ _ _ _ hsys1]; exact hni,
      by rw [counterPrices_logEntry_other _ _ _ _ _ hsys1]; exact hbd⟩
  | false =>
    rw [if_neg (by simp)]
    by_cases hcap : s.maxRounds < ((s.round + 1 : ℕ) : ℤ)
    · rw [if_pos hcap]
      exact ⟨htg, hmn,
        by rw [counterPrices_logEntry_other _ _ _ _ _ hsys3,
               counterPrices_logEntry_other _ _ _ _ _ hsys2]; exact hlc,
        by rw [counterPrices_logEntry_other _ _ _ _ _ hsys3,
               counterPrices_logEntry_other _ _ _ _ _ hsys2]; exact hni,
        by rw [counterPrices_logEntry_other _ _ _ _ _ hsys3,
               counterPrices_logEntry_other _ _ _ _ _ hsys2]; exact hbd⟩
    · rw [if_neg hcap]
      rcases hfp : floorProtect s.minimum p d with r | ⟨q, r⟩ | r
      · dsimp only
        exact ⟨htg, hmn,
          by rw [counterPrices_logEntry_other _ _ _ _ _ hsys4,
                 counterPrices_logEntry_other _ _ _ _ _ hsys2]; exact hlc,
          by rw [counterPrices_logEntry_other _ _ _ _ _ hsys4,
                 counterPrices_logEntry_other _ _ _ _ _ hsys2]; exact hni,
          by rw [counterPrices_logEntry_other _ _ _ _ _ hsys4,
                 counterPrices_logEntry_other _ _ _ _ _ hsys2]; exact hbd⟩
      · -- counter branch
        dsimp only
        -- bounds on the tentative counter price q
        have hq : min.toRat ≤ q.toRat ∧ q.toRat ≤ tgt.toRat := by
          rcases d with r0 | ⟨q0, r0⟩ | r0
          · exact absurd hfp (by simp [floorProtect])
          · have hq0 : q0 = q := by
              have h' := hfp
              simp only [floorProtect] at h'
              exact ((Decision.counter.injEq _ _ _ _).mp h').1
            have hd' : s.minimum.toRat ≤ q0.toRat ∧ q0.toRat ≤ s.target.toRat := hd
            rw [hmn, htg] at hd'
            exact hq0 ▸ hd'
          · unfold floorProtect at hfp
            by_cases hle : s.minimum.leB p = true
            · rw [if_pos hle] at hfp
              have hq' : s.minimum = q := ((Decision.counter.injEq _ _ _ _).mp hfp).1
              rw [← hq', hmn]
              exact ⟨le_refl _, hmt⟩
            · rw [if_neg hle] at hfp
              exact absurd hfp (by simp)
        have hbdlast : ∀ lc, s.lastCounter = some lc →
            min.toRat ≤ lc.toRat ∧ lc.toRat ≤ tgt.toRat ∧ isCentsVal lc := by
          intro lc hsl
          have hmem : lc ∈ counterPrices s.transcript :=
            List.mem_of_mem_getLast? (by rw [← hlc]; exact hsl)
          exact hbd lc hmem
        cases hsl : s.lastCounter with
        | none =>
          dsimp only
          have hempty : counterPrices s.transcript = [] :=
            List.getLast?_eq_none_iff.mp (by rw [← hlc]; exact hsl)
          have hcp := quantize2_in_range min tgt q hcm hct hq.1 hq.2
          refine ⟨htg, hmn, ?_, ?_, ?_⟩
          · rw [counterPrices_logEntry_counter,
                counterPrices_logEntry_other _ _ _ _ _ hsys2, List.getLast?_concat]
          · rw [counterPrices_logEntry_counter,
                counterPrices_logEntry_other _ _ _ _ _ hsys2, hempty]
            exact trivial
          · rw [counterPrices_logEntry_counter,
                counterPrices_logEntry_other _ _ _ _ _ hsys2, hempty]
            intro x hx
            rw [List.nil_append, List.mem_singleton] at hx
            exact hx ▸ hcp
        | some lc =>
          dsimp only
          obtain ⟨hl1, hl2, hlcents⟩ := hbdlast lc hsl
          by_cases hlt : lc.ltB q.quantize2 = true
          · rw [if_pos hlt, hmn]
            have hcp := clamped_in_range min tgt lc hcm h0 hl1 hl2 hlcents
            have hcp_tgt : ((lc.mul098.quantize2).pyMax min).toRat ≤ tgt.toRat :=
              le_trans hcp.2.1 hl2
            refine ⟨htg, rfl, ?_, ?_, ?_⟩
            · rw [counterPrices_logEntry_counter,
                  counterPrices_logEntry_other _ _ _ _ _ hsys2, List.getLast?_concat]
            · rw [counterPrices_logEntry_counter,
                  counterPrices_logEntry_other _ _ _ _ _ hsys2]
              refine NonIncr_append _ _ hni ?_
              intro a ha
              have : some lc = some a := by rw [← ha, ← hlc]; exact hsl.symm
              have ha' : a = lc := by injection this with h'; exact h'.symm
              rw [ha']
              exact hcp.2.1
            · rw [counterPrices_logEntry_counter,
                  counterPrices_logEntry_other _ _ _ _ _ hsys2]
              intro x hx
              rcases List.mem_append.mp hx with hx | hx
              · exact hbd x hx
              · rw [List.mem_singleton] at hx
                exact hx ▸ ⟨hcp.1, hcp_tgt, hcp.2.2⟩
          · rw [if_neg (by simp at hlt ⊢; exact hlt)]
            have hcp := quantize2_in_range min tgt q hcm hct hq.1 hq.2
            have hcple : q.quantize2.toRat ≤ lc.toRat := by
              have := (Money.ltB_eq_false_iff lc q.quantize2).mp (by revert hlt; cases lc.ltB q.quantize2 <;> simp)
              exact this
            refine ⟨htg, hmn, ?_, ?_, ?_⟩
            · rw [counterPrices_logEntry_counter,
                  counterPrices_logEntry_other _ _ _ _ _ hsys2, List.getLast?_concat]
            · rw [counterPrices_logEntry_counter,
                  counterPrices_logEntry_other _ _ _ _ _ hsys2]
              refine NonIncr_append _ _ hni ?_
              intro a ha
              have : some lc = some a := by rw [← ha, ← hlc]; exact hsl.symm
              have ha' : a = lc := by injection this with h'; exact h'.symm
              rw [ha']
              exact hcple
            · rw [counterPrices_logEntry_counter,
                  counterPrices_logEntry_other _ _ _ _ _ hsys2]
              intro x hx
              rcases List.mem_append.mp hx with hx | hx
              · exact hbd x hx
              · rw [List.mem_singleton] at hx
                exact hx ▸ hcp
      · -- reject branch
        dsimp only
        exact ⟨htg, hmn,
          by rw [counterPrices_logEntry_other _ _ _ _ _ hsys5,
                 counterPrices_logEntry_other _ _ _ _ _ hsys2]; exact hlc,
          by rw [counterPrices_logEntry_other _ _ _ _ _ hsys5,
                 counterPrices_logEntry_other _ _ _ _ _ hsys2]; exact hni,
          by rw [counterPrices_logEntry_other _ _ _ _ _ hsys5,
                 counterPrices_logEntry_other _ _ _ _ _ hsys2]; exact hbd⟩

theorem counterInv_reachable (tgt min : Money) (s : Engine) (h : ReachableB tgt min s)
    (hcm : isCentsVal min) (hct : isCentsVal tgt)
    (h0 : 0 ≤ min.toRat) (hmt : min.toRat ≤ tgt.toRat) :
    counterInv tgt min s := by
  induction h with
  | init maxRounds =>
    refine ⟨rfl, rfl, rfl, trivial, ?_⟩
    intro q hq
    exact absurd hq (by simp [counterPrices, Engine.init])
  | step s' p e ts d hd hr ih =>
    exact counterInv_step tgt min s' p e ts d hd hcm hct h0 hmt ih

/-- C2 (amended).  With cent-precision bounds `0 ≤ minimum ≤ target` and
in-range strategy decisions, the seller's emitted counter prices are
non-increasing and stay in `[minimum, target]`; and when the rounded
tentative counter exceeds `last_counter`, the emitted price is
`max(round2(last_counter · 0.98), minimum)` — the product is itself rounded
to 2 decimals before the `max`. -/
theorem seller_counter_monotone (tgt min : Money) (s : Engine)
    (hcm : isCentsVal min) (hct : isCentsVal tgt)
    (h0 : 0 ≤ min.toRat) (hmt : min.toRat ≤ tgt.toRat)
    (h : ReachableB tgt min s) :
    NonIncr (counterPrices s.transcript) ∧
    (∀ q ∈ counterPrices s.transcript, min.toRat ≤ q.toRat ∧ q.toRat ≤ tgt.toRat) ∧
    (∀ (p : Money) (ts : String) (qd : Money) (r : Option String) (lc : Money),
        s.lastCounter = some lc →
        lc.ltB qd.quantize2 = true →
        ¬ s.maxRounds < (s.round : ℤ) + 1 →
        (receiveOffer s p false ts (Decision.counter qd r)).2.2 =
          some ⟨(lc.mul098.quantize2).pyMax min, s.round + 1, r⟩) := by
  obtain ⟨htg, hmn, hlc, hni, hbd⟩ := counterInv_reachable tgt min s h hcm hct h0 hmt
  refine ⟨hni, fun q hq => ⟨(hbd q hq).1, (hbd q hq).2.1⟩, ?_⟩
  intro p ts qd r lc hsl hlt hcap
  have hcap' : ¬ s.maxRounds < ((s.round + 1 : ℕ) : ℤ) := by
    push_cast
    omega
  simp only [receiveOffer, Bool.false_eq_true, if_false, if_neg hcap']
  have hfp : floorProtect s.minimum p (Decision.counter qd r) = Decision.counter qd r := rfl
  rw [hfp]
  dsimp only
  rw [hsl]
  dsimp only
  rw [if_pos hlt, hmn]

/-- Engine with one emitted counter at 10.01, the setup of the clamp-formula
counterexample. -/
def c2Engine1 : Engine :=
  (receiveOffer (Engine.init ⟨2000, 2⟩ ⟨500, 2⟩ 5) ⟨600, 2⟩ false "t1"
    (Decision.counter ⟨1001, 2⟩ none)).1

/-- C2 counterexample.  With `last_counter = 10.01` and a tentative counter
of 15.00, the engine emits `round2(10.01 · 0.98) = 9.81`, not the claim's
`max(10.01 · 0.98, minimum) = 9.8098`: the product is quantized to 2 decimal
places before the comparison with the floor. -/
theorem seller_counter_clamp_counterexample :
    c2Engine1.lastCounter = some ⟨1001, 2⟩ ∧
    ((receiveOffer c2Engine1 ⟨700, 2⟩ false "t2" (Decision.counter ⟨1500, 2⟩ none)).2.2).map
        (fun o => o.price) = some ⟨981, 2⟩ ∧
    ¬ ((Money.toRat ⟨981, 2⟩) = max ((Money.toRat ⟨1001, 2⟩) * (98 / 100)) (Money.toRat ⟨500, 2⟩)) := by
  refine ⟨by decide, by decide, by norm_num [Money.toRat]⟩

theorem seller_counter_monotone_witness :
    NonIncr (counterPrices (Engine.init ⟨2000, 2⟩ ⟨500, 2⟩ 5).transcript) ∧
    (∀ q ∈ counterPrices (Engine.init ⟨2000, 2⟩ ⟨500, 2⟩ 5).transcript,
        (Money.toRat ⟨500, 2⟩) ≤ q.toRat ∧ q.toRat ≤ (Money.toRat ⟨2000, 2⟩)) ∧
    (∀ (p : Money) (ts : String) (qd : Money) (r : Option String) (lc : Money),
        (Engine.init ⟨2000, 2⟩ ⟨500, 2⟩ 5).lastCounter = some lc →
        lc.ltB qd.quantize2 = true →
        ¬ (Engine.init ⟨2000, 2⟩ ⟨500, 2⟩ 5).maxRounds <
            ((Engine.init ⟨2000, 2⟩ ⟨500, 2⟩ 5).round : ℤ) + 1 →
        (receiveOffer (Engine.init ⟨2000, 2⟩ ⟨500, 2⟩ 5) p false ts
            (Decision.counter qd r)).2.2 =
          some ⟨(lc.mul098.quantize2).pyMax ⟨500, 2⟩,
                (Engine.init ⟨2000, 2⟩ ⟨500, 2⟩ 5).round + 1, r⟩) :=
  seller_counter_monotone ⟨2000, 2⟩ ⟨500, 2⟩ (Engine.init ⟨2000, 2⟩ ⟨500, 2⟩ 5)
    ⟨500, by norm_num [Money.toRat]⟩ ⟨2000, by norm_num [Money.toRat]⟩
    (by norm_num [Money.toRat]) (by norm_num [Money.toRat])
    (ReachableB.init 5)

/-!
The concession curve `_exp_concession` (src/apex/negotiation.py), modelled
over the reals, and the strategy risk table `_STRATEGY_RISK`.
-/

/-- The `Strategy` enum. -/
inductive Strategy where
  | firm
  | balanced
  | flexible
  | llm
deriving DecidableEq, Repr

/-- `_STRATEGY_RISK.get(strategy, 0.6)`: the table defines the three
algorithmic strategies and `_curve_decide` falls back to 0.6. -/
def strategyRisk : Strategy → ℚ
  | Strategy.firm => 0.3
  | Strategy.balanced => 0.6
  | Strategy.flexible => 0.85
  | Strategy.llm => 0.6

/-- `_exp_concession`: the float arithmetic is idealised to exact reals. -/
noncomputable def expConcession (target minimum : ℝ) (round maxRounds : ℕ) (risk : ℝ) : ℝ :=
  let t : ℝ := (round : ℝ) / (maxRounds : ℝ)
  let base : ℝ := 0.65 * risk
  let factor : ℝ := 1 - Real.exp (-(base * t))
  target - (target - minimum) * factor

/-- C7.  The concession curve has risks 0.3 / 0.6 / 0.85 for firm / balanced
/ flexible, returns `target` at round 0, and is non-increasing in the round. -/
theorem curve_target_and_monotone (target minimum risk : ℝ) (maxRounds : ℕ)
    (h1 : minimum ≤ target) (h2 : 0 ≤ minimum) (h3 : 1 ≤ maxRounds) (h4 : 0 < risk) :
    (strategyRisk Strategy.firm = 0.3 ∧ strategyRisk Strategy.balanced = 0.6 ∧
     strategyRisk Strategy.flexible = 0.85) ∧
    expConcession target minimum 0 maxRounds risk = target ∧
    (∀ r1 r2 : ℕ, r1 ≤ r2 →
      expConcession target minimum r2 maxRounds risk ≤
        expConcession target minimum r1 maxRounds risk) := by
  refine ⟨⟨rfl, rfl, rfl⟩, ?_, ?_⟩
  · simp [expConcession, Real.exp_zero]
  · intro r1 r2 hr
    have hmr : (0 : ℝ) < (maxRounds : ℝ) := by
      have : (1 : ℝ) ≤ (maxRounds : ℝ) := by exact_mod_cast h3
      linarith
    have hbase : (0 : ℝ) < 0.65 * risk := by nlinarith
    have ht : (r1 : ℝ) / (maxRounds : ℝ) ≤ (r2 : ℝ) / (maxRounds : ℝ) := by
      have hr' : (r1 : ℝ) ≤ (r2 : ℝ) := by exact_mod_cast hr
      gcongr
    have hexp : Real.exp (-(0.65 * risk * ((r2 : ℝ) / (maxRounds : ℝ)))) ≤
        Real.exp (-(0.65 * risk * ((r1 : ℝ) / (maxRounds : ℝ)))) := by
      apply Real.exp_le_exp.mpr
      nlinarith
    have htm : (0 : ℝ) ≤ target - minimum := by linarith
    have hprod := mul_nonneg htm (sub_nonneg.mpr hexp)
    simp only [expConcession]
    linarith

theorem curve_target_and_monotone_witness :
    (strategyRisk Strategy.firm = 0.3 ∧ strategyRisk Strategy.balanced = 0.6 ∧
     strategyRisk Strategy.flexible = 0.85) ∧
    expConcession 2 1 0 1 1 = 2 ∧
    (∀ r1 r2 : ℕ, r1 ≤ r2 → expConcession 2 1 r2 1 1 ≤ expConcession 2 1 r1 1 1) :=
  curve_target_and_monotone 2 1 1 1 (by norm_num) (by norm_num) (by norm_num) (by norm_num)

/-!
The pricing model (src/apex/pricing.py).
-/

/-- The fields of a `Negotiated` pricing configuration. -/
structure NegotiatedCfg where
  base : Option Money
  target : Option Money
  minimum : Option Money
  maxRounds : ℤ
  currency : String
  strategy : Option String
  model : Option String
  baseUrl : Option String
  instructions : List String
deriving DecidableEq, Repr

/-- `Negotiated.__post_init__`: the only validation is the presence check on
`base` versus `(target, minimum)`; on success the default model is filled in
for base mode. -/
def negotiatedPostInit (cfg : NegotiatedCfg) : Except String NegotiatedCfg :=
  if cfg.base = none ∧ (cfg.target = none ∨ cfg.minimum = none) then
    Except.error "Negotiated requires either \x27base\x27 or both \x27target\x27 and \x27minimum\x27"
  else if cfg.base ≠ none ∧ cfg.model = none then
    Except.ok { cfg with model := some "gpt-4o-mini" }
  else Except.ok cfg

/-- Whether construction succeeded. -/
def exceptIsOk {ε α : Type} : Except ε α → Bool
  | Except.ok _ => true
  | Except.error _ => false

/-- Configuration with `target = 10.00 < minimum = 20.00` and
`max_rounds = 0`: under the claim it must be rejected. -/
def c6BadCfg : NegotiatedCfg :=
  ⟨none, some ⟨1000, 2⟩, some ⟨2000, 2⟩, 0, "USDC", none, none, none, []⟩

/-- C6 counterexample.  `Negotiated(target=10.00, minimum=20.00,
max_rounds=0)` constructs successfully: `__post_init__` never checks
`target < minimum` or `max_rounds < 1`. -/
theorem negotiated_validation_counterexample :
    exceptIsOk (negotiatedPostInit c6BadCfg) = true ∧
    c6BadCfg.target = some ⟨1000, 2⟩ ∧ c6BadCfg.minimum = some ⟨2000, 2⟩ ∧
    c6BadCfg.maxRounds = 0 := by
  refine ⟨by decide, rfl, rfl, rfl⟩

/-- C6 (amended).  The constructor fails exactly when neither `base` nor
both of `(target, minimum)` is provided; `target < minimum` and
`max_rounds < 1` are accepted. -/
theorem negotiated_validation_amended (cfg : NegotiatedCfg) :
    exceptIsOk (negotiatedPostInit cfg) = true ↔
      ¬ (cfg.base = none ∧ (cfg.target = none ∨ cfg.minimum = none)) := by
  unfold negotiatedPostInit
  by_cases h : cfg.base = none ∧ (cfg.target = none ∨ cfg.minimum = none)
  · rw [if_pos h]
    simp [exceptIsOk, h]
  · rw [if_neg h]
    by_cases h2 : cfg.base ≠ none ∧ cfg.model = none
    · rw [if_pos h2]
      simp [exceptIsOk, h]
    · rw [if_neg h2]
      simp [exceptIsOk, h]

/-!
The protocol dispatcher (src/apex/agent.py, `Agent.handle` and its `_handle`
methods; src/apex/wrapper.py carries an identical copy).  JSON values are
modelled by `JsonV`; the user handler `run` is an input function; the
freshly generated uuid for a missing `job_id`, the strategy decision, the
deadline test and the timestamp are inputs as in `receiveOffer`.
-/

/-- A JSON value. -/
inductive JsonV where
  | null
  | bool (b : Bool)
  | num (q : ℚ)
  | str (s : String)
  | arr (xs : List JsonV)
  | obj (fields : List (String × JsonV))

/-- The pricing variants. -/
inductive Pricing where
  | fixed (amount : Money) (currency : String)
  | negotiated (cfg : NegotiatedCfg)

def optStr : Option String → JsonV
  | none => JsonV.null
  | some s => JsonV.str s

def optNum : Option Money → JsonV
  | none => JsonV.null
  | some a => JsonV.num a.toRat

/-- `Fixed.to_dict` / `Negotiated.to_dict`. -/
def Pricing.toDict : Pricing → JsonV
  | Pricing.fixed amount currency =>
      JsonV.obj [("model", JsonV.str "fixed"), ("amount", JsonV.num amount.toRat),
                 ("currency", JsonV.str currency)]
  | Pricing.negotiated cfg =>
      if cfg.base ≠ none then
        JsonV.obj [("model", JsonV.str "negotiated"), ("base", optNum cfg.base),
                   ("max_rounds", JsonV.num (cfg.maxRounds : ℚ)),
                   ("currency", JsonV.str cfg.currency),
                   ("strategy", optStr cfg.strategy),
                   ("requires_estimation", JsonV.bool true)]
      else
        JsonV.obj [("model", JsonV.str "negotiated"), ("target_amount", optNum cfg.target),
                   ("min_amount", optNum cfg.minimum),
                   ("max_rounds", JsonV.num (cfg.maxRounds : ℚ)),
                   ("currency", JsonV.str cfg.currency),
                   ("strategy", optStr cfg.strategy)]

def Pricing.currencyOf : Pricing → String
  | Pricing.fixed _ c => c
  | Pricing.negotiated cfg => cfg.currency

/-- Identity of the serving agent, for `apex/discover`. -/
structure AgentInfo where
  agentId : String
  name : String
  description : Option String
  capabilities : List String
  walletAddress : String

/-- The request parameters the handlers read
(`params.get("offer", {}).get("amount", 0)`, `params.get("job_id", ...)`,
`params.get("terms", {})`, `params.get("input", {})`). -/
structure Params where
  offerAmount : Option Money
  jobId : Option String
  terms : Option JsonV
  input : Option JsonV

/-- A JSON-RPC request as read by `Agent.handle`. -/
structure RpcRequest where
  method : String
  id : String
  params : Params

/-- A JSON-RPC response: `_make_response`, `_make_error`, or the bare `None`
Python returns when a handler falls through every branch. -/
inductive RpcOut where
  | success (id : String) (result : JsonV)
  | failure (id : String) (code : ℤ) (message : String)
  | noResponse

/-- Replace the engine bound to a job id (in-place mutation of the engine
held in `self._negotiation_engines`). -/
def updateJobs (js : List (String × Engine)) (k : String) (e : Engine) :
    List (String × Engine) :=
  js.map (fun kv => if kv.1 = k then (k, e) else kv)

/-- `self._negotiation_engines.pop(job_id, None)`. -/
def removeJob (js : List (String × Engine)) (k : String) : List (String × Engine) :=
  js.filter (fun kv => kv.1 ≠ k)

/-- `Agent._get_discover_result`. -/
def getDiscoverResult (agent : AgentInfo) (price : Pricing) : JsonV :=
  JsonV.obj [
    ("agent", JsonV.obj [("id", JsonV.str agent.agentId), ("name", JsonV.str agent.name),
                         ("description", optStr agent.description)]),
    ("capabilities", JsonV.arr (agent.capabilities.map (fun cap =>
        JsonV.obj [("id", JsonV.str cap), ("name", JsonV.str cap),
                   ("pricing", price.toDict)]))),
    ("payment", JsonV.obj [("networks", JsonV.arr [JsonV.str "base"]),
                           ("currencies", JsonV.arr [JsonV.str price.currencyOf]),
                           ("address", JsonV.str agent.walletAddress)])]

def termsObj (amount : Money) (currency : String) : JsonV :=
  JsonV.obj [("amount", JsonV.num amount.toRat), ("currency", JsonV.str currency)]

/-- The `{status: "completed", job_id, terms, output}` result body. -/
def completedResult (jobId : String) (terms output : JsonV) : JsonV :=
  JsonV.obj [("status", JsonV.str "completed"), ("job_id", JsonV.str jobId),
             ("terms", terms), ("output", output)]

/-- The `{status: "counter", ...}` result body. -/
def counterResult (jobId : String) (c : Offer) (currency : String) (maxRounds : ℤ) : JsonV :=
  JsonV.obj [("status", JsonV.str "counter"), ("job_id", JsonV.str jobId),
             ("offer", JsonV.obj [("amount", JsonV.num c.price.toRat),
                                  ("currency", JsonV.str currency)]),
             ("round", JsonV.num (c.round : ℚ)), ("max_rounds", JsonV.num (maxRounds : ℚ)),
             ("reason", optStr c.reason)]

/-- `NegotiationEngine.__init__` on a pricing: base-rate mode raises, which
`Agent.handle` surfaces as `-32603`. -/
def engineFromPricing (cfg : NegotiatedCfg) : Except String Engine :=
  if cfg.base ≠ none then
    Except.error "NegotiationEngine requires target/minimum. For base rate pricing, use Agent._get_or_create_engine() with estimate bounds."
  else
    match cfg.target, cfg.minimum with
    | some t, some m => Except.ok (Engine.init t m cfg.maxRounds)
    | _, _ => Except.error "invalid negotiation bounds"

/-- `Agent._handle_propose`. -/
def handlePropose (price : Pricing) (jobs : List (String × Engine)) (requestId : String)
    (ps : Params) (freshId : String) (d : Decision) (expired : Bool) (ts : String)
    (run : JsonV → JsonV) : RpcOut × List (String × Engine) :=
  let offerAmount := ps.offerAmount.getD ⟨0, 0⟩
  let inputData := ps.input.getD (JsonV.obj [])
  let jobId := ps.jobId.getD freshId
  match price with
  | Pricing.negotiated cfg =>
    match (match jobs.lookup jobId with
           | some e => Except.ok (e, jobs)
           | none => (engineFromPricing cfg).map (fun e => (e, jobs ++ [(jobId, e)]))) with
    | Except.error msg => (RpcOut.failure requestId (-32603) msg, jobs)
    | Except.ok (engine, jobs1) =>
      let res := receiveOffer engine offerAmount expired ts d
      let jobs2 := updateJobs jobs1 jobId res.1
      match res.2.1 with
      | NState.accepted =>
          (RpcOut.success requestId
            (completedResult jobId (termsObj offerAmount cfg.currency) (run inputData)),
           removeJob jobs2 jobId)
      | NState.rejected =>
          (RpcOut.failure requestId (-32018) "Offer rejected", removeJob jobs2 jobId)
      | NState.expired =>
          (RpcOut.failure requestId (-32019) "Negotiation expired", removeJob jobs2 jobId)
      | NState.inProgress =>
          match res.2.2 with
          | some c =>
              (RpcOut.success requestId (counterResult jobId c cfg.currency cfg.maxRounds),
               jobs2)
          | none => (RpcOut.noResponse, jobs2)
  | Pricing.fixed amount currency =>
    if amount.leB offerAmount then
      (RpcOut.success requestId
        (completedResult jobId (termsObj amount currency) (run inputData)), jobs)
    else
      (RpcOut.failure requestId (-32017) ("Price is " ++ amount.str ++ " " ++ currency), jobs)

/-- `Agent._handle_counter`.  `if not job_id or job_id not in
self._negotiation_engines: -32008`. -/
def handleCounter (price : Pricing) (jobs : List (String × Engine)) (requestId : String)
    (ps : Params) (d : Decision) (expired : Bool) (ts : String)
    (run : JsonV → JsonV) : RpcOut × List (String × Engine) :=
  match price with
  | Pricing.fixed _ _ => (RpcOut.failure requestId (-32007) "Pricing is not negotiable", jobs)
  | Pricing.negotiated cfg =>
    let offerAmount := ps.offerAmount.getD ⟨0, 0⟩
    let jobId := ps.jobId.getD ""
    let inputData := ps.input.getD (JsonV.obj [])
    if jobId = "" then
      (RpcOut.failure requestId (-32008) "Unknown job_id", jobs)
    else
      match jobs.lookup jobId with
      | none => (RpcOut.failure requestId (-32008) "Unknown job_id", jobs)
      | some engine =>
        let res := receiveOffer engine offerAmount expired ts d
        let jobs2 := updateJobs jobs jobId res.1
        match res.2.1 with
        | NState.accepted =>
            (RpcOut.success requestId
              (completedResult jobId (termsObj offerAmount cfg.currency) (run inputData)),
             removeJob jobs2 jobId)
        | NState.rejected =>
            (RpcOut.failure requestId (-32018) "Negotiation ended - no agreement",
             removeJob jobs2 jobId)
        | NState.expired =>
            (RpcOut.failure requestId (-32019) "Negotiation expired", removeJob jobs2 jobId)
        | NState.inProgress =>
            match res.2.2 with
            | some c =>
                (RpcOut.success requestId (counterResult jobId c cfg.currency cfg.maxRounds),
                 jobs2)
            | none => (RpcOut.noResponse, jobs2)

/-- `Agent._handle_accept`: runs the handler and echoes the buyer-supplied
terms without consulting the job map. -/
def handleAccept (jobs : List (String × Engine)) (requestId : String) (ps : Params)
    (run : JsonV → JsonV) : RpcOut × List (String × Engine) :=
  let jobId := ps.jobId.getD ""
  let terms := ps.terms.getD (JsonV.obj [])
  let inputData := ps.input.getD (JsonV.obj [])
  let output := run inputData
  (RpcOut.success requestId (completedResult jobId terms output), removeJob jobs jobId)

/-- `Agent.handle`: the method dispatch. -/
def handle (agent : AgentInfo) (price : Pricing) (jobs : List (String × Engine))
    (req : RpcRequest) (freshId : String) (d : Decision) (expired : Bool) (ts : String)
    (run : JsonV → JsonV) : RpcOut × List (String × Engine) :=
  if req.method = "apex/discover" then
    (RpcOut.success req.id (getDiscoverResult agent price), jobs)
  else if req.method = "apex/propose" then
    handlePropose price jobs req.id req.params freshId d expired ts run
  else if req.method = "apex/counter" then
    handleCounter price jobs req.id req.params d expired ts run
  else if req.method = "apex/accept" then
    handleAccept jobs req.id req.params run
  else
    (RpcOut.failure req.id (-32601) ("Method not found: " ++ req.method), jobs)

/-- Agent identity used by the dispatcher examples. -/
def demoAgent : AgentInfo := ⟨"research-bot-1a2b3c4d", "Research Bot", none, ["research"], "0xabc"⟩

/-- A legacy-mode negotiated configuration: target 25.00, minimum 15.00. -/
def demoCfg : NegotiatedCfg :=
  ⟨none, some ⟨2500, 2⟩, some ⟨1500, 2⟩, 5, "USDC", some "balanced", none, none, []⟩

/-- C3 counterexample.  An `apex/estimate` request is answered with error
`-32601`: no dispatcher branch handles it, contradicting the claim that the
five methods including `estimate` are accepted. -/
theorem dispatcher_estimate_counterexample :
    handle demoAgent (Pricing.negotiated demoCfg) [] ⟨"apex/estimate", "1", ⟨none, none, none, none⟩⟩
        "fresh-job" (Decision.accept none) false "t" (fun _ => JsonV.obj []) =
      (RpcOut.failure "1" (-32601) "Method not found: apex/estimate", []) := by
  rfl

/-- C3 (amended).  The dispatcher accepts exactly the four methods
`apex/discover`, `apex/propose`, `apex/counter`, `apex/accept`, each routed
to the corresponding operation; every other method — including
`apex/estimate` — is answered with error `-32601`. -/
theorem dispatcher_methods (agent : AgentInfo) (price : Pricing) (jobs : List (String × Engine))
    (req : RpcRequest) (freshId : String) (d : Decision) (expired : Bool) (ts : String)
    (run : JsonV → JsonV) :
    (req.method = "apex/discover" →
        handle agent price jobs req freshId d expired ts run =
          (RpcOut.success req.id (getDiscoverResult agent price), jobs)) ∧
    (req.method = "apex/propose" →
        handle agent price jobs req freshId d expired ts run =
          handlePropose price jobs req.id req.params freshId d expired ts run) ∧
    (req.method = "apex/counter" →
        handle agent price jobs req freshId d expired ts run =
          handleCounter price jobs req.id req.params d expired ts run) ∧
    (req.method = "apex/accept" →
        handle agent price jobs req freshId d expired ts run =
          handleAccept jobs req.id req.params run) ∧
    (req.method ≠ "apex/discover" → req.method ≠ "apex/propose" →
     req.method ≠ "apex/counter" → req.method ≠ "apex/accept" →
        handle agent price jobs req freshId d expired ts run =
          (RpcOut.failure req.id (-32601) ("Method not found: " ++ req.method), jobs)) := by
  refine ⟨?_, ?_, ?_, ?_, ?_⟩
  · intro h
    simp [handle, h]
  · intro h
    simp [handle, h]
  · intro h
    simp [handle, h]
  · intro h
    simp [handle, h]
  · intro h1 h2 h3 h4
    simp [handle, h1, h2, h3, h4]

theorem dispatcher_methods_witness :
    handle demoAgent (Pricing.negotiated demoCfg) [] ⟨"apex/reject", "7", ⟨none, none, none, none⟩⟩
        "fresh-job" (Decision.accept none) false "t" (fun _ => JsonV.obj []) =
      (RpcOut.failure "7" (-32601) ("Method not found: " ++ "apex/reject"), []) :=
  (dispatcher_methods demoAgent (Pricing.negotiated demoCfg) []
      ⟨"apex/reject", "7", ⟨none, none, none, none⟩⟩ "fresh-job" (Decision.accept none) false "t"
      (fun _ => JsonV.obj [])).2.2.2.2 (by decide) (by decide) (by decide) (by decide)

/-- C4 counterexample.  An `apex/accept` request with a job id that was
never seen is answered with a completed result, not `-32008`. -/
theorem accept_unknown_job_counterexample :
    handle demoAgent (Pricing.negotiated demoCfg) [] ⟨"apex/accept", "9",
        ⟨none, some "ghost-job", some (JsonV.obj [("amount", JsonV.num 1)]), some (JsonV.obj [])⟩⟩
        "fresh-job" (Decision.accept none) false "t" (fun _ => JsonV.str "done") =
      (RpcOut.success "9"
        (completedResult "ghost-job" (JsonV.obj [("amount", JsonV.num 1)]) (JsonV.str "done")),
       []) := by
  rfl

/-- C4 (amended).  A counter request on a negotiable agent whose job id is
empty or absent from the job map is answered with `-32008`; an accept
request never consults the job map and always returns a completed result
echoing the buyer-supplied terms. -/
theorem unknown_job_amended (agent : AgentInfo) (price : Pricing) (jobs : List (String × Engine))
    (req : RpcRequest) (freshId : String) (d : Decision) (expired : Bool) (ts : String)
    (run : JsonV → JsonV) :
    (∀ cfg, price = Pricing.negotiated cfg → req.method = "apex/counter" →
        (req.params.jobId.getD "" = "" ∨ jobs.lookup (req.params.jobId.getD "") = none) →
        handle agent price jobs req freshId d expired ts run =
          (RpcOut.failure req.id (-32008) "Unknown job_id", jobs)) ∧
    (req.method = "apex/accept" →
        handle agent price jobs req freshId d expired ts run =
          (RpcOut.success req.id
             (completedResult (req.params.jobId.getD "") (req.params.terms.getD (JsonV.obj []))
               (run (req.params.input.getD (JsonV.obj [])))),
           removeJob jobs (req.params.jobId.getD ""))) := by
  constructor
  · intro cfg hcfg hm habs
    have hdisp := (dispatcher_methods agent price jobs req freshId d expired ts run).2.2.1 hm
    rw [hdisp, hcfg]
    unfold handleCounter
    dsimp only
    rcases habs with h | h
    · rw [if_pos h]
    · by_cases h0 : req.params.jobId.getD "" = ""
      · rw [if_pos h0]
      · rw [if_neg h0, h]
  · intro hm
    have hdisp := (dispatcher_methods agent price jobs req freshId d expired ts run).2.2.2.1 hm
    rw [hdisp]
    rfl

theorem unknown_job_amended_witness :
    handle demoAgent (Pricing.negotiated demoCfg) [] ⟨"apex/counter", "3",
        ⟨some ⟨100, 2⟩, some "ghost-job", none, none⟩⟩ "fresh-job" (Decision.accept none) false "t"
        (fun _ => JsonV.null) =
      (RpcOut.failure "3" (-32008) "Unknown job_id", []) ∧
    handle demoAgent (Pricing.negotiated demoCfg) [] ⟨"apex/accept", "4",
        ⟨none, some "ghost-job", none, none⟩⟩ "fresh-job" (Decision.accept none) false "t"
        (fun _ => JsonV.null) =
      (RpcOut.success "4" (completedResult "ghost-job" (JsonV.obj []) JsonV.null), []) :=
  ⟨(unknown_job_amended demoAgent (Pricing.negotiated demoCfg) []
      ⟨"apex/counter", "3", ⟨some ⟨100, 2⟩, some "ghost-job", none, none⟩⟩ "fresh-job"
      (Decision.accept none) false "t" (fun _ => JsonV.null)).1 demoCfg rfl rfl (Or.inr rfl),
   (unknown_job_amended demoAgent (Pricing.negotiated demoCfg) []
      ⟨"apex/accept", "4", ⟨none, some "ghost-job", none, none⟩⟩ "fresh-job"
      (Decision.accept none) false "t" (fun _ => JsonV.null)).2 rfl⟩

/-- C10.  Every `apex/accept` request — any job id, any buyer-supplied
terms — runs the handler on the supplied input and returns a completed
result echoing the terms verbatim; the response is independent of the job
map and of every engine's state, which is only consulted for removal. -/
theorem accept_echoes_terms (agent : AgentInfo) (price : Pricing) (jobs : List (String × Engine))
    (req : RpcRequest) (freshId : String) (d : Decision) (expired : Bool) (ts : String)
    (run : JsonV → JsonV) (hm : req.method = "apex/accept") :
    (handle agent price jobs req freshId d expired ts run).1 =
      RpcOut.success req.id
        (completedResult (req.params.jobId.getD "") (req.params.terms.getD (JsonV.obj []))
          (run (req.params.input.getD (JsonV.obj [])))) ∧
    (handle agent price jobs req freshId d expired ts run).2 =
      removeJob jobs (req.params.jobId.getD "") := by
  have hdisp := (dispatcher_methods agent price jobs req freshId d expired ts run).2.2.2.1 hm
  rw [hdisp]
  exact ⟨rfl, rfl⟩

theorem accept_echoes_terms_witness :
    (handle demoAgent (Pricing.negotiated demoCfg)
        [("other-job", Engine.init ⟨2500, 2⟩ ⟨1500, 2⟩ 5)]
        ⟨"apex/accept", "11", ⟨none, some "job-x",
            some (JsonV.obj [("amount", JsonV.num 999), ("currency", JsonV.str "USDC")]),
            some (JsonV.str "payload")⟩⟩ "fresh-job" (Decision.accept none) false "t"
        (fun j => JsonV.arr [j])).1 =
      RpcOut.success "11"
        (completedResult "job-x"
          (JsonV.obj [("amount", JsonV.num 999), ("currency", JsonV.str "USDC")])
          (JsonV.arr [JsonV.str "payload"])) ∧
    (handle demoAgent (Pricing.negotiated demoCfg)
        [("other-job", Engine.init ⟨2500, 2⟩ ⟨1500, 2⟩ 5)]
        ⟨"apex/accept", "11", ⟨none, some "job-x",
            some (JsonV.obj [("amount", JsonV.num 999), ("currency", JsonV.str "USDC")]),
            some (JsonV.str "payload")⟩⟩ "fresh-job" (Decision.accept none) false "t"
        (fun j => JsonV.arr [j])).2 =
      removeJob [("other-job", Engine.init ⟨2500, 2⟩ ⟨1500, 2⟩ 5)] "job-x" :=
  accept_echoes_terms demoAgent (Pricing.negotiated demoCfg)
    [("other-job", Engine.init ⟨2500, 2⟩ ⟨1500, 2⟩ 5)]
    ⟨"apex/accept", "11", ⟨none, some "job-x",
        some (JsonV.obj [("amount", JsonV.num 999), ("currency", JsonV.str "USDC")]),
        some (JsonV.str "payload")⟩⟩ "fresh-job" (Decision.accept none) false "t"
    (fun j => JsonV.arr [j]) rfl

/-!
The settlement verifier (src/apex/payments/settlement.py, `Payment.verify`)
and the static network table (src/apex/payments/config.py).  The chain is an
input (`ChainView`): the receipt and transaction the RPC endpoint would
return for `proof.tx_hash`, with `none` covering both a missing object and a
raised lookup error.  ERC-20 calldata is a lowercase-normalised hex string;
`decode_function_input` for `transfer(_to, _value)` checks the 4-byte
selector `a9059cbb` and splits the two 32-byte words.
-/

/-- A row of `NETWORKS` (config.py). -/
structure NetworkConfig where
  chainId : ℕ
  name : String
  rpcUrl : String
  explorerUrl : String
  usdcAddress : String
  isTestnet : Bool

/-- The `NETWORKS` table. -/
def NETWORKS : List (String × NetworkConfig) :=
  [("base", ⟨8453, "Base", "https://mainnet.base.org", "https://basescan.org",
             "0x833589fCD6eDb6E08f4c7C32D4f71b54bdA02913", false⟩),
   ("base-sepolia", ⟨84532, "Base Sepolia (Testnet)", "https://sepolia.base.org",
             "https://sepolia.basescan.org",
             "0x036CbD53842c5426634e7929541eC2318f3dCF7e", true⟩),
   ("sepolia", ⟨11155111, "Ethereum Sepolia (Testnet)",
             "https://eth-sepolia.g.alchemy.com/v2/uqa1KLfFGZBRNF36FydhW",
             "https://sepolia.etherscan.io",
             "0x1c7D4B196Cb0C7B01d743Fbc6116a902379C7238", true⟩)]

/-- `get_network`, with the raised `ValueError` for an unknown network
modelled as `none`. -/
def getNetwork (network : String) : Option NetworkConfig := NETWORKS.lookup network

/-- `USDC_DECIMALS = 6`. -/
def USDC_DECIMALS : ℕ := 6

/-- A `PaymentProof`. -/
structure PaymentProof where
  jobId : String
  txHash : String
  network : String
  amount : ℚ
  currency : String
  fromAddress : String
  toAddress : String
  timestamp : String

/-- The transaction receipt fields the verifier reads. -/
structure TxReceipt where
  status : ℤ

/-- The transaction fields the verifier reads. -/
structure TxData where
  toAddr : String
  fromAddr : String
  inputData : String

/-- What the chain returns for `proof.tx_hash`. -/
structure ChainView where
  receipt : Option TxReceipt
  tx : Option TxData

def hexVal? (c : Char) : Option ℕ :=
  let n := c.toNat
  if 48 ≤ n ∧ n ≤ 57 then some (n - 48)
  else if 97 ≤ n ∧ n ≤ 102 then some (n - 87)
  else if 65 ≤ n ∧ n ≤ 70 then some (n - 55)
  else none

def hexToNat? (s : String) : Option ℕ :=
  s.data.foldl
    (fun acc c =>
      match acc, hexVal? c with
      | some a, some v => some (a * 16 + v)
      | _, _ => none)
    (some 0)

/-- `decode_function_input` specialised to `transfer(_to, _value)`:
`0x` + 8 selector digits + two 32-byte words; the recipient is the last 20
bytes of the first word. -/
def decodeTransfer (inputData : String) : Option (String × ℕ) :=
  let s := inputData.toLower
  if s.length = 138 ∧ s.take 10 = "0xa9059cbb" then
    let args := s.drop 10
    let toHex := (args.take 64).drop 24
    let valHex := args.drop 64
    match hexToNat? args, hexToNat? valHex with
    | some _, some v => some ("0x" ++ toHex, v)
    | _, _ => none
  else none

/-- The `if expected_seller and to_address.lower() != expected_seller.lower()`
guard, as the Boolean that makes the verifier return false. -/
def expectedSellerMismatch (es : Option String) (toAddress : String) : Bool :=
  match es with
  | some s => !s.isEmpty && (toAddress.toLower != s.toLower)
  | none => false

/-- `Payment.verify`: every failing step returns false. -/
def paymentVerify (chain : ChainView) (proof : PaymentProof) (expectedSeller : Option String)
    (tolerance : ℚ) : Bool :=
  match getNetwork proof.network with
  | none => false
  | some config =>
    match chain.receipt with
    | none => false
    | some receipt =>
      if receipt.status ≠ 1 then false
      else
        match chain.tx with
        | none => false
        | some tx =>
          if tx.toAddr.toLower ≠ config.usdcAddress.toLower then false
          else
            match decodeTransfer tx.inputData with
            | none => false
            | some (toAddress, rawAmount) =>
              let amount : ℚ := (rawAmount : ℚ) / 10 ^ USDC_DECIMALS
              if expectedSellerMismatch expectedSeller toAddress = true then false
              else if toAddress.toLower ≠ proof.toAddress.toLower then false
              else if tolerance < abs (amount - proof.amount) then false
              else if tx.fromAddr.toLower ≠ proof.fromAddress.toLower then false
              else true

/-- Modelled from the spec: the claim's characterisation of a verified
payment, one conjunction per step of §4.8. -/
def verifySpec (chain : ChainView) (proof : PaymentProof) (expectedSeller : Option String)
    (tolerance : ℚ) : Prop :=
  ∃ config, getNetwork proof.network = some config ∧
  ∃ receipt, chain.receipt = some receipt ∧ receipt.status = 1 ∧
  ∃ tx, chain.tx = some tx ∧ tx.toAddr.toLower = config.usdcAddress.toLower ∧
  ∃ toAddress rawAmount, decodeTransfer tx.inputData = some (toAddress, rawAmount) ∧
    (∀ s, expectedSeller = some s → s.isEmpty = false → toAddress.toLower = s.toLower) ∧
    toAddress.toLower = proof.toAddress.toLower ∧
    abs ((rawAmount : ℚ) / 10 ^ USDC_DECIMALS - proof.amount) ≤ tolerance ∧
    tx.fromAddr.toLower = proof.fromAddress.toLower

theorem expectedSellerMismatch_eq_false_iff (es : Option String) (toAddress : String) :
    expectedSellerMismatch es toAddress = false ↔
      ∀ s, es = some s → s.isEmpty = false → toAddress.toLower = s.toLower := by
  cases es with
  | none => simp [expectedSellerMismatch]
  | some s =>
    simp only [expectedSellerMismatch, Bool.and_eq_false_iff, Option.some.injEq]
    constructor
    · intro h s' hs' hie
      subst hs'
      rcases h with h | h
      · simp at h
        rw [h] at hie
        exact absurd hie (by simp)
      · exact bne_eq_false_iff_eq.mp h
    · intro h
      cases hie : s.isEmpty with
      | true => left; simp [hie]
      | false =>
        right
        exact bne_eq_false_iff_eq.mpr (h s rfl hie)

/-- C9.  `Payment.verify` returns true exactly when the network is known,
the receipt exists with success status, the transaction pays the network's
token contract, its input decodes as `transfer(to, value)` to the proof's
recipient (and the expected seller when set), the scaled amount is within
tolerance of the proof amount, and the sender matches — all address
comparisons case-insensitive; any step failure yields false. -/
theorem payment_verify_iff (chain : ChainView) (proof : PaymentProof)
    (expectedSeller : Option String) (tolerance : ℚ) :
    paymentVerify chain proof expectedSeller tolerance = true ↔
      verifySpec chain proof expectedSeller tolerance := by
  unfold paymentVerify verifySpec
  cases hcfg : getNetwork proof.network with
  | none => simp
  | some config =>
    cases hrc : chain.receipt with
    | none => simp
    | some receipt =>
      dsimp only
      by_cases hst : receipt.status = 1
      · rw [if_neg (fun hc => hc hst)]
        cases htx : chain.tx with
        | none => simp
        | some tx =>
          dsimp only
          by_cases hto : tx.toAddr.toLower = config.usdcAddress.toLower
          · rw [if_neg (fun hc => hc hto)]
            cases hdec : decodeTransfer tx.inputData with
            | none => simp [hdec]
            | some pr =>
              obtain ⟨toAddress, rawAmount⟩ := pr
              dsimp only
              by_cases hes : expectedSellerMismatch expectedSeller toAddress = true
              · rw [if_pos hes]
                simp only [Bool.false_eq_true, false_iff]
                rintro ⟨c, hc, r, hr, hs, t, ht, hto2, ta, ra, hdec2, hes2, hta2, hamt2, hfrom2⟩
                rw [Option.some.injEq] at hc hr ht
                subst hc
                subst hr
                subst ht
                rw [hdec, Option.some.injEq] at hdec2
                injection hdec2 with h1 h2
                subst h1
                simp [(expectedSellerMismatch_eq_false_iff expectedSeller toAddress).mpr hes2] at hes
              · rw [if_neg hes]
                have hesF : expectedSellerMismatch expectedSeller toAddress = false := by
                  revert hes
                  cases expectedSellerMismatch expectedSeller toAddress <;> simp
                have hesprop := (expectedSellerMismatch_eq_false_iff _ _).mp hesF
                by_cases hta : toAddress.toLower = proof.toAddress.toLower
                · rw [if_neg (fun hc => hc hta)]
                  by_cases hamt :
                      tolerance < abs ((rawAmount : ℚ) / 10 ^ USDC_DECIMALS - proof.amount)
                  · rw [if_pos hamt]
                    simp only [Bool.false_eq_true, false_iff]
                    rintro ⟨c, hc, r, hr, hs, t, ht, hto2, ta, ra, hdec2, hes2, hta2, hamt2, hfrom2⟩
                    rw [Option.some.injEq] at hc hr ht
                    subst hc
                    subst hr
                    subst ht
                    rw [hdec, Option.some.injEq] at hdec2
                    injection hdec2 with h1 h2
                    subst h1
                    subst h2
                    exact absurd hamt2 (not_le.mpr hamt)
                  · rw [if_neg hamt]
                    by_cases hfrom : tx.fromAddr.toLower = proof.fromAddress.toLower
                    · rw [if_neg (fun hc => hc hfrom)]
                      exact iff_of_true rfl
                        ⟨config, rfl, receipt, rfl, hst, tx, rfl, hto, toAddress, rawAmount, hdec,
                         hesprop, hta, not_lt.mp hamt, hfrom⟩
                    · rw [if_pos hfrom]
                      simp only [Bool.false_eq_true, false_iff]
                      rintro ⟨c, hc, r, hr, hs, t, ht, hto2, ta, ra, hdec2, hes2, hta2, hamt2, hfrom2⟩
                      rw [Option.some.injEq] at ht
                      subst ht
                      exact hfrom hfrom2
                · rw [if_pos hta]
                  simp only [Bool.false_eq_true, false_iff]
                  rintro ⟨c, hc, r, hr, hs, t, ht, hto2, ta, ra, hdec2, hes2, hta2, hamt2, hfrom2⟩
                  rw [Option.some.injEq] at hc hr ht
                  subst hc
                  subst hr
                  subst ht
                  rw [hdec, Option.some.injEq] at hdec2
                  injection hdec2 with h1 h2
                  subst h1
                  exact hta hta2
          · rw [if_pos hto]
            simp only [Bool.false_eq_true, false_iff]
            rintro ⟨c, hc, r, hr, hs, t, ht, hto2, rest⟩
            rw [Option.some.injEq] at hc ht
            subst hc
            subst ht
            exact hto hto2
      · rw [if_pos hst]
        simp only [Bool.false_eq_true, false_iff]
        rintro ⟨c, hc, r, hr, hs, rest⟩
        rw [Option.some.injEq] at hr
        subst hr
        exact hst hs
